import Mathlib

/-!
Verification development for the RAG chatbot indexing-and-retrieval pipeline.

The Python sources are shallowly embedded: pure functions become Lean
functions, the ChromaDB collection becomes an explicit list of embedding
records threaded through the storage operations, exceptions become an
explicit success flag or `Except`, and the external collaborators (the
embedding functions and the generation service) become function parameters.
Embedding vectors and distances are modelled over `Int`: none of the
verified properties depend on fractional distance values, and integer
arithmetic keeps every definition kernel-executable.

Python string primitives used by the code (`str.strip`, `str.count`,
`str.join`, decimal rendering inside f-strings) are modelled explicitly as
executable functions on `List Char`.
-/

/-- Models Python's default whitespace set for `str.strip` (ASCII subset). -/
def pyIsWS (c : Char) : Bool :=
  c == ' ' || c == '\t' || c == '\n' || c == '\x0b' || c == '\x0c' || c == '\r'

/-- Models Python's `str.strip()`: drop leading and trailing whitespace. -/
def pyStrip (s : String) : String :=
  ⟨((s.data.dropWhile pyIsWS).reverse.dropWhile pyIsWS).reverse⟩

/-- Decimal digit character for a value below ten. -/
def digitChar (n : Nat) : Char :=
  if n = 0 then '0' else if n = 1 then '1' else if n = 2 then '2'
  else if n = 3 then '3' else if n = 4 then '4' else if n = 5 then '5'
  else if n = 6 then '6' else if n = 7 then '7' else if n = 8 then '8' else '9'

/-- Decimal rendering of a natural number, fuelled so that it is structural
(the fuel `n + 1` always suffices since the recursion divides by ten). -/
def natReprAux (fuel n : Nat) : List Char :=
  match fuel with
  | 0 => []
  | fuel + 1 =>
    if n < 10 then [digitChar n]
    else natReprAux fuel (n / 10) ++ [digitChar (n % 10)]

/-- Models the decimal rendering of a number inside a Python f-string. -/
def natRepr (n : Nat) : String := ⟨natReprAux (n + 1) n⟩

/-- Value of a digit string, used to invert `natRepr`. -/
def digitsVal (l : List Char) : Nat :=
  l.foldl (fun a c => 10 * a + (c.toNat - 48)) 0

/-- Boolean test that `p` is a prefix of `l`. -/
def checkPref : List Char → List Char → Bool
  | [], _ => true
  | _ :: _, [] => false
  | a :: as, b :: bs => a == b && checkPref as bs

/-- Boolean test that `p` occurs as a contiguous substring of `l`. -/
def hasSub (p : List Char) : List Char → Bool
  | [] => p.isEmpty
  | c :: cs => checkPref p (c :: cs) || hasSub p cs

/-- Models Python's `str.count` scan: non-overlapping occurrences, scanning
left to right and skipping the length of the pattern after each match.
Fuelled so that the definition is structural; fuel `l.length` suffices. -/
def pyCountAux (pat : List Char) : Nat → List Char → Nat
  | _, [] => 0
  | 0, _ :: _ => 0
  | fuel + 1, c :: cs =>
    if checkPref pat (c :: cs) then pyCountAux pat fuel (cs.drop (pat.length - 1)) + 1
    else pyCountAux pat fuel cs

/-- Occurrence count on character lists with the canonical fuel. -/
def pyCnt (pat l : List Char) : Nat := pyCountAux pat l.length l

/-- Models Python's `s.count(pat)` for a non-empty pattern. -/
def pyCount (s pat : String) : Nat := pyCnt pat.data s.data

/-- Models Python's `sep.join(parts)`. -/
def pyJoin (sep : String) : List String → String
  | [] => ""
  | p :: rest => rest.foldl (fun acc q => acc ++ sep ++ q) p

/-- Chunk entity, from `models.py`: identifier, parent document identifier
(the UUID rendered as a string), 1-indexed page number, text. -/
structure Chunk where
  chunk_id : String
  doc_id : String
  page_number : Nat
  text : String
deriving DecidableEq

/-- One element of `pages_data` as produced by `extract_pdf_pages`
(`core/ingest.py`): page text plus its 1-indexed page number. -/
structure PageData where
  text : String
  page_number : Nat
deriving DecidableEq

/-- Chunk identifier from `core/chunker.py` line 50:
the f-string `{doc_id}_{page_number}_{idx}`. -/
def mkChunkId (doc_id : String) (page_number idx : Nat) : String :=
  doc_id ++ "_" ++ natRepr page_number ++ "_" ++ natRepr idx

/-- Embeds `chunk_document` (`core/chunker.py` lines 41-60). The text
splitter is a parameter: the per-page loop, the `enumerate` index and the
chunk-identifier scheme are independent of how a page's text is split.
The nested Python loops appending to `chunks` become nested folds, the
inner one carrying the `enumerate` counter. -/
def chunk_document (split : String → List String) (doc_id : String)
    (pages_data : List PageData) : List Chunk :=
  pages_data.foldl
    (fun chunks page =>
      ((split page.text).foldl
        (fun st tc =>
          (st.1 ++ [{ chunk_id := mkChunkId doc_id page.page_number st.2,
                      doc_id := doc_id,
                      page_number := page.page_number,
                      text := tc }],
           st.2 + 1))
        (chunks, 0)).1)
    []

/-- Character windows of width `csize` advancing by `step + 1`, fuelled to
stay structural; fuel `t.length` suffices. -/
def windowsAux (csize step : Nat) : Nat → List Char → List (List Char)
  | 0, t => [t]
  | fuel + 1, t =>
    if t.length ≤ csize then [t]
    else t.take csize :: windowsAux csize step fuel (t.drop (step + 1))

/-- Modelled from the spec: `RecursiveCharacterTextSplitter.split_text`
(the `langchain_text_splitters` dependency used by `chunk_document`, not
under src/). Per the spec (§4.1): a page empty after trimming contributes
zero chunks; a page not exceeding the configured maximum chunk size yields
exactly one chunk equal to the trimmed input; a longer page is split into
chunks bounded by the chunk size with a configured character overlap,
each chunk trimmed and empty chunks dropped. The layered separator
preference (paragraph, line, sentence, word, character) only moves chunk
boundaries, which no verified claim depends on, so the finest
(character-position) layer stands in for the full hierarchy. -/
def split_text (chunk_size chunk_overlap : Nat) (text : String) : List String :=
  let t := pyStrip text
  if t = "" then []
  else if t.length ≤ chunk_size then [t]
  else
    ((windowsAux chunk_size (chunk_size - chunk_overlap - 1) t.data.length t.data).map
      (fun l => pyStrip ⟨l⟩)).filter (fun s => s != "")

/-- Embedding record, the unit persisted in the ChromaDB collection
(`core/storage.py` lines 72-91): identifier, document text, embedding
vector, and the metadata fields written by `save_chunks_to_db`. -/
structure EmbRecord where
  id : String
  text : String
  emb : List Int
  doc_id : String
  page_number : Nat
  filename : String
deriving DecidableEq

/-- The persistent collection, modelled as the list of stored records. -/
abbrev Store : Type := List EmbRecord

/-- Metadata map attached to each record (`core/storage.py` lines 75-79). -/
structure ChunkMeta where
  doc_id : String
  page_number : Nat
  filename : String
deriving DecidableEq

instance : Inhabited ChunkMeta := ⟨⟨"", 0, ""⟩⟩

/-- Result shape of `collection.query`: one inner list per query embedding
(`query_collection` passes exactly one query embedding). -/
structure QueryResults where
  ids : List (List String)
  documents : List (List String)
  metadatas : List (List ChunkMeta)
  distances : List (List Int)
deriving DecidableEq

/-- Squared L2 distance, ChromaDB's default collection metric. -/
def sqDist (a b : List Int) : Int :=
  ((a.zip b).map (fun p => (p.1 - p.2) * (p.1 - p.2))).foldl (· + ·) 0

/-- Insert into a list sorted by `key`, keeping it sorted. -/
def insertSorted (key : EmbRecord → Int) (x : EmbRecord) : List EmbRecord → List EmbRecord
  | [] => [x]
  | y :: ys => if key x ≤ key y then x :: y :: ys else y :: insertSorted key x ys

/-- Insertion sort by `key`, ascending. -/
def sortByKey (key : EmbRecord → Int) (l : List EmbRecord) : List EmbRecord :=
  l.foldr (insertSorted key) []

/-- Restriction of the collection by the optional `where` filter: records
whose `doc_id` metadata equals the filter value, or everything. -/
def applyWhere (w : Option String) (st : Store) : Store :=
  match w with
  | none => st
  | some d => List.filter (fun r => r.doc_id == d) st

/-- Models ChromaDB's `collection.query` contract: nearest-neighbor search
over the records matching the `where` filter, returning up to `n_results`
items in ascending distance order, with the included documents, metadata
and distances, each wrapped in a singleton outer list (one per query
embedding). -/
def collQuery (st : Store) (qemb : List Int) (n_results : Nat)
    (w : Option String) : QueryResults :=
  let matched := applyWhere w st
  let sorted := sortByKey (fun r => sqDist qemb r.emb) matched
  let top := sorted.take n_results
  { ids := [top.map (fun r => r.id)],
    documents := [top.map (fun r => r.text)],
    metadatas := [top.map (fun r => ⟨r.doc_id, r.page_number, r.filename⟩)],
    distances := [top.map (fun r => sqDist qemb r.emb)] }

/-- Models ChromaDB's `collection.add` on a batch of records, per its
documented duplicate-identifier handling: an id already present in the
collection is NOT overwritten (the insert for it is skipped with a
warning; older releases raise instead — under neither behavior is the
existing record replaced). -/
def collAdd (st : Store) (new : List EmbRecord) : Store :=
  new.foldl (fun s r => if s.any (fun x => x.id == r.id) then s else s ++ [r]) st

/-- Modelled from the spec: the Vector Store `upsert` of §4.2 and the §4.2
invariant ("re-upserting a chunk identifier already present must overwrite
it"). This is what the spec prescribes for `save_chunks_to_db`; the code
calls `collection.add` (`collAdd`) instead. -/
def collUpsert (st : Store) (new : List EmbRecord) : Store :=
  new.foldl
    (fun s r =>
      if s.any (fun x => x.id == r.id) then
        s.map (fun x => if x.id == r.id then r else x)
      else s ++ [r])
    st

/-- Embeds `save_chunks_to_db` (`core/storage.py` lines 50-94). The
batched document-intent embedding function is a parameter; `doc_metadata`
is modelled by its only consulted entry, the optional `"filename"` value
(line 78 defaults it to `"unknown"`). Returns the updated store and the
reported count. -/
def save_chunks_to_db (embD : List String → List (List Int)) (st : Store)
    (chunks : List Chunk) (filenameMeta : Option String) : Store × Nat :=
  if chunks.isEmpty then (st, 0)
  else
    let documents := chunks.map (fun c => c.text)
    let fname := filenameMeta.getD "unknown"
    let embeddings := embD documents
    let records := (chunks.zip embeddings).map
      (fun ce =>
        { id := ce.1.chunk_id, text := ce.1.text, emb := ce.2,
          doc_id := ce.1.doc_id, page_number := ce.1.page_number,
          filename := fname })
    (collAdd st records, chunks.length)

/-- Python truthiness of the `filter_doc_id` argument (`core/storage.py`
lines 114-117): the `where` filter is built only when the argument is
neither `None` nor the empty string. -/
def truthyFilter : Option String → Option String
  | none => none
  | some s => if s.isEmpty then none else some s

/-- Embeds `query_collection` (`core/storage.py` lines 97-126): embed the
query with the query-intent embedding function, build the `where` filter
from the truthy `filter_doc_id`, and run the collection query. -/
def query_collection (embQ : String → List Int) (st : Store) (query_text : String)
    (n_results : Nat) (filter_doc_id : Option String) : QueryResults :=
  collQuery st (embQ query_text) n_results (truthyFilter filter_doc_id)

/-- Embeds `delete_document_chunks` (`core/storage.py` lines 129-146). The
`ok` flag models whether the underlying storage call raises: the `except`
branch returns `false` instead of propagating. -/
def delete_document_chunks (ok : Bool) (st : Store) (doc_id : String) : Store × Bool :=
  if ok then (st.filter (fun r => r.doc_id != doc_id), true)
  else (st, false)

/-- Models the f-string `{similarity:.2%}` of `core/retriever.py` line 58
on the integer-valued similarities of this model: the value times 100,
two decimal places, a percent sign. -/
def fmtPercent (sim : Int) : String :=
  (if sim < 0 then "-" else "") ++ natRepr (sim.natAbs * 100) ++ ".00%"

/-- Embeds the formatting loop of `get_context` (`core/retriever.py` lines
46-62): one block per retrieved (text, metadata) pair, consisting of a
source header with filename and page number, a relevance annotation
computed from `1 - distance` when the running index is within the
distances list, and the chunk text on the next line. -/
def buildParts (dists : List Int) : Nat → List (String × ChunkMeta) → List String
  | _, [] => []
  | idx, (text, m) :: rest =>
    let header := "[Source: " ++ m.filename ++ ", Page " ++ natRepr m.page_number ++ "]"
    let header2 :=
      if dists ≠ [] ∧ idx < dists.length then
        header ++ " (Relevance: " ++ fmtPercent (1 - dists.getD idx 0) ++ ")"
      else header
    (header2 ++ "\n" ++ text) :: buildParts dists (idx + 1) rest

/-- Block shape asserted by the spec (§4.3) for one retrieved result: a
citation header with the source filename and page number, a relevance
annotation derived from `1 - distance` when the result's rank falls inside
the distances list, and the chunk text on the next line. The theorems
below compare the imperative loop `buildParts` against this shape. -/
def renderBlock (dists : List Int) (idx : Nat) (text : String) (m : ChunkMeta) : String :=
  let header := "[Source: " ++ m.filename ++ ", Page " ++ natRepr m.page_number ++ "]"
  let header2 :=
    if dists ≠ [] ∧ idx < dists.length then
      header ++ " (Relevance: " ++ fmtPercent (1 - dists.getD idx 0) ++ ")"
    else header
  header2 ++ "\n" ++ text

/-- Embeds `get_context` (`core/retriever.py` lines 13-67): query the
collection, return the empty string when the result set is empty, else
join the rendered blocks with the fixed delimiter. -/
def get_context (embQ : String → List Int) (st : Store) (query : String)
    (doc_id : Option String) (n_results : Nat) : String :=
  let results := query_collection embQ st query n_results doc_id
  match results.documents with
  | [] => ""
  | docs0 :: _ =>
    if docs0 = [] then ""
    else
      let metas := results.metadatas.headD []
      let dists := results.distances.headD []
      pyJoin "\n\n---\n\n" (buildParts dists 0 (docs0.zip metas))

/-- System prompt of `core/qa_engine.py` line 25. -/
def SYSTEM_PROMPT : String :=
  "You are a helpful assistant. Answer the question ONLY using the provided context. If the answer isn\x27t there, say you don\x27t know. Always cite the page numbers used."

/-- Fixed refusal message of `core/qa_engine.py` line 45 (also returned by
the query endpoint when no context is retrieved, `backend/main.py` 238). -/
def NO_CONTEXT_MSG : String :=
  "I don\x27t have any relevant information to answer this question. Please make sure documents have been ingested into the system."

/-- Fixed message for an empty model response, `core/qa_engine.py` line 68. -/
def UNABLE_MSG : String :=
  "I was unable to generate a response. Please try again."

/-- Full prompt construction of `core/qa_engine.py` lines 48-55. -/
def buildPrompt (question context : String) : String :=
  SYSTEM_PROMPT ++ "\n\nCONTEXT:\n" ++ context ++ "\n\nQUESTION: " ++ question ++ "\n\nANSWER:"

/-- Embeds `generate_answer` (`core/qa_engine.py` lines 28-71). The
external generation service is a parameter returning either an exception
message (`Except.error`, the `except` branch) or a response whose optional
text models `response.text` being `None`; an empty text is falsy in the
`if response and response.text` check. The second component counts
invocations of the generation service. -/
def generate_answer (llm : String → Except String (Option String))
    (question context : String) : String × Nat :=
  if pyStrip context = "" then (NO_CONTEXT_MSG, 0)
  else
    match llm (buildPrompt question context) with
    | Except.error e => ("Error generating answer: " ++ e, 1)
    | Except.ok none => (UNABLE_MSG, 1)
    | Except.ok (some t) => if t = "" then (UNABLE_MSG, 1) else (pyStrip t, 1)

/-- Response model of the `/query` endpoint (`backend/main.py` lines 76-80). -/
structure QueryResponse where
  answer : String
  question : String
  sources_used : Nat
deriving DecidableEq

/-- Embeds the `/query` endpoint `query_documents` (`backend/main.py`
lines 210-259): retrieve context with `top_k = 5`, short-circuit with the
refusal response when the context is empty or blank, else derive the
source count as `context.count("---") + 1` and generate the answer. The
second component counts generation-service calls. -/
def query_documents (llm : String → Except String (Option String))
    (embQ : String → List Int) (st : Store) (question : String)
    (doc_id : Option String) : QueryResponse × Nat :=
  let context := get_context embQ st question doc_id 5
  if pyStrip context = "" then
    ({ answer := NO_CONTEXT_MSG, question := question, sources_used := 0 }, 0)
  else
    let sources_count := if context ≠ "" then pyCount context "---" + 1 else 0
    let ac := generate_answer llm question context
    ({ answer := ac.1, question := question, sources_used := sources_count }, ac.2)

/-! ### String primitive lemmas -/

theorem str_data_append (s t : String) : (s ++ t).data = s.data ++ t.data := by
  cases s; cases t; rfl

theorem str_ext {s t : String} (h : s.data = t.data) : s = t := by
  cases s; cases t; exact congrArg String.mk h

theorem str_append_assoc (a b c : String) : a ++ b ++ c = a ++ (b ++ c) := by
  apply str_ext
  simp [str_data_append]

theorem dropWhile_len_le (p : Char → Bool) :
    ∀ l : List Char, (l.dropWhile p).length ≤ l.length := by
  intro l
  induction l with
  | nil => simp
  | cons c cs ih =>
    by_cases h : p c
    · simp only [List.dropWhile, h]
      simpa using Nat.le_succ_of_le ih
    · simp [List.dropWhile, h]

theorem pyStrip_len_le (s : String) : (pyStrip s).length ≤ s.length := by
  show (((s.data.dropWhile pyIsWS).reverse.dropWhile pyIsWS).reverse).length ≤ s.data.length
  calc (((s.data.dropWhile pyIsWS).reverse.dropWhile pyIsWS).reverse).length
      = ((s.data.dropWhile pyIsWS).reverse.dropWhile pyIsWS).length := by
        rw [List.length_reverse]
    _ ≤ (s.data.dropWhile pyIsWS).reverse.length := dropWhile_len_le _ _
    _ = (s.data.dropWhile pyIsWS).length := by rw [List.length_reverse]
    _ ≤ s.data.length := dropWhile_len_le _ _

theorem dropWhile_ne_nil_of_mem {p : Char → Bool} {l : List Char} {c : Char}
    (hc : c ∈ l) (hp : p c = false) : l.dropWhile p ≠ [] := by
  induction l with
  | nil => cases hc
  | cons a as ih =>
    by_cases ha : p a
    · simp only [List.dropWhile, ha]
      rcases List.mem_cons.mp hc with h | h
      · subst h
        rw [ha] at hp
        cases hp
      · exact ih h
    · simp [List.dropWhile, ha]

theorem pyStrip_ne_empty {s : String} {c : Char} {rest : List Char}
    (hd : s.data = c :: rest) (hc : pyIsWS c = false) : pyStrip s ≠ "" := by
  intro h
  have hdat : (((s.data.dropWhile pyIsWS).reverse.dropWhile pyIsWS).reverse) = [] := by
    have := congrArg String.data h
    simpa [pyStrip] using this
  rw [List.reverse_eq_nil_iff] at hdat
  have h1 : s.data.dropWhile pyIsWS = c :: rest := by
    rw [hd]
    simp [List.dropWhile, hc]
  apply dropWhile_ne_nil_of_mem (p := pyIsWS) (l := (s.data.dropWhile pyIsWS).reverse) (c := c)
  · rw [h1]
    simp
  · exact hc
  · exact hdat

theorem str_ne_empty_of_data {s : String} {c : Char} {rest : List Char}
    (hd : s.data = c :: rest) : s ≠ "" := by
  intro h
  rw [h] at hd
  cases hd

/-! ### Decimal rendering lemmas -/

theorem digitChar_toNat {n : Nat} (h : n < 10) : (digitChar n).toNat - 48 = n := by
  interval_cases n <;> decide

theorem digitChar_ne_us (n : Nat) : digitChar n ≠ '_' := by
  unfold digitChar
  repeat' split
  all_goals decide

theorem digitsVal_append_singleton (l : List Char) (c : Char) :
    digitsVal (l ++ [c]) = 10 * digitsVal l + (c.toNat - 48) := by
  simp [digitsVal, List.foldl_append]

theorem natReprAux_val : ∀ fuel n, n < fuel → digitsVal (natReprAux fuel n) = n := by
  intro fuel
  induction fuel with
  | zero => intro n h; omega
  | succ f ih =>
    intro n h
    by_cases h10 : n < 10
    · simp [natReprAux, h10, digitsVal, digitChar_toNat h10]
    · have hdiv : n / 10 < f := by
        have := Nat.div_lt_self (by omega : 0 < n) (by omega : 1 < 10)
        omega
      have hmod : n % 10 < 10 := Nat.mod_lt _ (by omega)
      simp only [natReprAux, h10, if_false]
      rw [digitsVal_append_singleton, ih _ hdiv, digitChar_toNat hmod]
      omega

theorem natRepr_inj {a b : Nat} (h : natRepr a = natRepr b) : a = b := by
  have hd : natReprAux (a + 1) a = natReprAux (b + 1) b := congrArg String.data h
  have ha := natReprAux_val (a + 1) a (by omega)
  have hb := natReprAux_val (b + 1) b (by omega)
  rw [hd] at ha
  omega

theorem natReprAux_no_us : ∀ fuel n, '_' ∉ natReprAux fuel n := by
  intro fuel
  induction fuel with
  | zero => intro n h; cases h
  | succ f ih =>
    intro n h
    by_cases h10 : n < 10
    · simp [natReprAux, h10] at h
      exact digitChar_ne_us n h.symm
    · simp only [natReprAux, h10, if_false, List.mem_append] at h
      rcases h with h | h
      · exact ih _ h
      · simp at h
        exact digitChar_ne_us _ h.symm

theorem natRepr_no_us (n : Nat) : '_' ∉ (natRepr n).data := natReprAux_no_us _ n

/-! ### Last-underscore splitting and chunk-identifier injectivity -/

theorem us_split : ∀ (u u' v v' : List Char), '_' ∉ v → '_' ∉ v' →
    u ++ '_' :: v = u' ++ '_' :: v' → u = u' ∧ v = v' := by
  intro u
  induction u with
  | nil =>
    intro u' v v' hv hv' heq
    cases u' with
    | nil => simpa using heq
    | cons c u1 =>
      simp only [List.nil_append, List.cons_append, List.cons.injEq] at heq
      exfalso
      apply hv
      rw [heq.2]
      simp [heq.1]
  | cons c u1 ih =>
    intro u' v v' hv hv' heq
    cases u' with
    | nil =>
      simp only [List.nil_append, List.cons_append, List.cons.injEq] at heq
      exfalso
      apply hv'
      rw [← heq.2]
      simp [heq.1]
    | cons c' u1' =>
      simp only [List.cons_append, List.cons.injEq] at heq
      obtain ⟨hc, htail⟩ := heq
      obtain ⟨h1, h2⟩ := ih u1' v v' hv hv' htail
      exact ⟨by rw [hc, h1], h2⟩

theorem mkChunkId_data (d : String) (p i : Nat) :
    (mkChunkId d p i).data =
      (d.data ++ '_' :: (natRepr p).data) ++ '_' :: (natRepr i).data := by
  show (d ++ "_" ++ natRepr p ++ "_" ++ natRepr i).data = _
  simp [str_data_append, List.append_assoc]

theorem mkChunkId_inj {d : String} {p i q j : Nat}
    (h : mkChunkId d p i = mkChunkId d q j) : p = q ∧ i = j := by
  have hd := congrArg String.data h
  rw [mkChunkId_data, mkChunkId_data] at hd
  obtain ⟨h1, h2⟩ := us_split _ _ _ _ (natRepr_no_us i) (natRepr_no_us j) hd
  have h3 : ('_' :: (natRepr p).data) = ('_' :: (natRepr q).data) :=
    List.append_cancel_left h1
  simp only [List.cons.injEq, true_and] at h3
  constructor
  · exact natRepr_inj (str_ext h3)
  · exact natRepr_inj (str_ext h2)

/-! ### Occurrence-count lemmas -/

theorem pyCountAux_congr (pat : List Char) :
    ∀ f1 f2 l, l.length ≤ f1 → l.length ≤ f2 →
      pyCountAux pat f1 l = pyCountAux pat f2 l := by
  intro f1
  induction f1 with
  | zero =>
    intro f2 l h1 _
    have : l = [] := List.length_eq_zero.mp (by omega)
    subst this
    cases f2 <;> rfl
  | succ g1 ih =>
    intro f2 l h1 h2
    cases l with
    | nil => cases f2 <;> rfl
    | cons c cs =>
      cases f2 with
      | zero => simp at h2
      | succ g2 =>
        have hlen : (cs.drop (pat.length - 1)).length ≤ cs.length := by
          rw [List.length_drop]; omega
        have hcs1 : cs.length ≤ g1 := by simp at h1; omega
        have hcs2 : cs.length ≤ g2 := by simp at h2; omega
        simp only [pyCountAux]
        cases hcp : checkPref pat (c :: cs) with
        | true =>
          simp only [if_true]
          rw [ih g2 _ (by omega) (by omega)]
        | false =>
          simp only [Bool.false_eq_true, if_false]
          rw [ih g2 _ (by omega) (by omega)]

theorem pyCnt_nil (pat : List Char) : pyCnt pat [] = 0 := rfl

theorem pyCnt_cons_neg {pat : List Char} {c : Char} {cs : List Char}
    (h : checkPref pat (c :: cs) = false) : pyCnt pat (c :: cs) = pyCnt pat cs := by
  simp [pyCnt, pyCountAux, h]

theorem pyCnt_cons_pos {pat : List Char} {c : Char} {cs : List Char}
    (h : checkPref pat (c :: cs) = true) :
    pyCnt pat (c :: cs) = pyCnt pat (cs.drop (pat.length - 1)) + 1 := by
  simp only [pyCnt, List.length_cons, pyCountAux, h, if_true, Nat.add_left_inj]
  apply pyCountAux_congr
  · rw [List.length_drop]; omega
  · exact Nat.le_refl _

/-- The citation delimiter pattern `---` as a character list. -/
def dash3 : List Char := ['-', '-', '-']

theorem hasSub_cons_elim {p : List Char} {c : Char} {cs : List Char}
    (h : hasSub p (c :: cs) = false) :
    checkPref p (c :: cs) = false ∧ hasSub p cs = false := by
  simpa [hasSub] using h

theorem cnt_skip : ∀ (b t : List Char), hasSub dash3 b = false →
    t.head? ≠ some '-' → pyCnt dash3 (b ++ t) = pyCnt dash3 t := by
  intro b
  induction b with
  | nil => intro t _ _; rfl
  | cons c b1 ih =>
    intro t hb ht
    obtain ⟨hb1, hb2⟩ := hasSub_cons_elim hb
    by_cases hc : checkPref dash3 (c :: (b1 ++ t)) = true
    · exfalso
      cases b1 with
      | nil =>
        cases t with
        | nil => simp [dash3, checkPref] at hc
        | cons x xs =>
          cases xs with
          | nil => simp [dash3, checkPref] at hc
          | cons y ys =>
            simp only [List.nil_append] at hc
            simp only [dash3, checkPref, Bool.and_eq_true, beq_iff_eq] at hc
            exact ht (by rw [← hc.2.1]; rfl)
      | cons d b2 =>
        cases b2 with
        | nil =>
          cases t with
          | nil => simp [dash3, checkPref] at hc
          | cons x xs =>
            simp only [List.cons_append, List.nil_append] at hc
            simp only [dash3, checkPref, Bool.and_eq_true, beq_iff_eq] at hc
            exact ht (by rw [← hc.2.2.1]; rfl)
        | cons e b3 =>
          simp only [List.cons_append] at hc
          simp only [dash3, checkPref, Bool.and_eq_true, beq_iff_eq] at hc
          have hpb : checkPref dash3 (c :: d :: e :: b3) = true := by
            simp [dash3, checkPref, ← hc.1, ← hc.2.1, ← hc.2.2.1]
          rw [hpb] at hb1
          cases hb1
    · have hc2 : checkPref dash3 (c :: (b1 ++ t)) = false := by
        simpa using hc
      rw [show ((c :: b1) ++ t) = (c :: (b1 ++ t)) from rfl,
        pyCnt_cons_neg hc2, ih t hb2 ht]

theorem cnt_zero {b : List Char} (h : hasSub dash3 b = false) : pyCnt dash3 b = 0 := by
  have := cnt_skip b [] h (by simp)
  simpa using this

/-- The fixed delimiter of `get_context` as a character list. -/
def sepD : List Char := ['\n', '\n', '-', '-', '-', '\n', '\n']

theorem cnt_sep (X : List Char) :
    pyCnt dash3 (sepD ++ X) = pyCnt dash3 X + 1 := by
  show pyCnt dash3 ('\n' :: '\n' :: '-' :: '-' :: '-' :: '\n' :: '\n' :: X) = _
  rw [pyCnt_cons_neg (by simp [dash3, checkPref])]
  rw [pyCnt_cons_neg (by simp [dash3, checkPref])]
  rw [pyCnt_cons_pos (by simp [dash3, checkPref])]
  have hdrop : (('-' :: '-' :: '\n' :: '\n' :: X).drop (dash3.length - 1)) = '\n' :: '\n' :: X := rfl
  rw [hdrop]
  rw [pyCnt_cons_neg (by simp [dash3, checkPref])]
  rw [pyCnt_cons_neg (by simp [dash3, checkPref])]

/-! ### Join lemmas -/

theorem pyJoin_foldl_pull (sep : String) :
    ∀ (l : List String) (x y : String),
      l.foldl (fun acc q => acc ++ sep ++ q) (x ++ y) =
        x ++ l.foldl (fun acc q => acc ++ sep ++ q) y := by
  intro l
  induction l with
  | nil => intro x y; rfl
  | cons a as ih =>
    intro x y
    simp only [List.foldl_cons]
    rw [show x ++ y ++ sep ++ a = x ++ (y ++ sep ++ a) from by
      rw [str_append_assoc x y sep, str_append_assoc x (y ++ sep) a]]
    exact ih x (y ++ sep ++ a)

theorem pyJoin_cons (sep p q : String) (qs : List String) :
    pyJoin sep (p :: q :: qs) = p ++ sep ++ pyJoin sep (q :: qs) := by
  show (q :: qs).foldl (fun acc r => acc ++ sep ++ r) p = _
  simp only [List.foldl_cons]
  rw [show p ++ sep ++ q = (p ++ sep) ++ q from rfl,
    pyJoin_foldl_pull sep qs (p ++ sep) q]
  rfl

theorem pyJoin_structure (sep p : String) (qs : List String) :
    ∃ r : String, pyJoin sep (p :: qs) = p ++ r := by
  cases qs with
  | nil =>
    refine ⟨"", ?_⟩
    apply str_ext
    simp [pyJoin, str_data_append]
  | cons q qs2 =>
    refine ⟨sep ++ pyJoin sep (q :: qs2), ?_⟩
    rw [pyJoin_cons, str_append_assoc]

theorem pyJoin_head (sep : String) {p : String} {c : Char} {rest : List Char}
    (qs : List String) (hp : p.data = c :: rest) :
    ∃ tail : List Char, (pyJoin sep (p :: qs)).data = c :: tail := by
  obtain ⟨r, hr⟩ := pyJoin_structure sep p qs
  refine ⟨rest ++ r.data, ?_⟩
  rw [hr, str_data_append, hp]
  rfl

theorem cnt_join (sep : String) (hsep : sep.data = sepD) :
    ∀ parts : List String,
      (∀ p ∈ parts, hasSub dash3 p.data = false) →
      parts ≠ [] →
      pyCnt dash3 (pyJoin sep parts).data = parts.length - 1 := by
  intro parts
  induction parts with
  | nil => intro _ h; cases h rfl
  | cons p qs ih =>
    intro hsub _
    cases qs with
    | nil =>
      show pyCnt dash3 p.data = 0
      exact cnt_zero (hsub p (by simp))
    | cons q qs2 =>
      rw [pyJoin_cons, str_data_append, str_data_append, hsep, List.append_assoc]
      rw [cnt_skip p.data _ (hsub p (by simp)) (by simp [sepD])]
      rw [cnt_sep]
      rw [ih (fun r hr => hsub r (by simp [hr])) (by simp)]
      simp

/-! ### Sorting lemmas -/

theorem length_insertSorted (key : EmbRecord → Int) (x : EmbRecord) :
    ∀ l, (insertSorted key x l).length = l.length + 1 := by
  intro l
  induction l with
  | nil => rfl
  | cons y ys ih =>
    by_cases h : key x ≤ key y
    · simp [insertSorted, h]
    · simp [insertSorted, h, ih]

theorem length_sortByKey (key : EmbRecord → Int) (l : List EmbRecord) :
    (sortByKey key l).length = l.length := by
  induction l with
  | nil => rfl
  | cons y ys ih =>
    show (insertSorted key y (sortByKey key ys)).length = ys.length + 1
    rw [length_insertSorted, ih]

theorem mem_insertSorted (key : EmbRecord → Int) (x z : EmbRecord) :
    ∀ l, z ∈ insertSorted key x l ↔ z = x ∨ z ∈ l := by
  intro l
  induction l with
  | nil => simp [insertSorted]
  | cons y ys ih =>
    by_cases h : key x ≤ key y
    · simp [insertSorted, h]
    · simp [insertSorted, h, ih]
      tauto

theorem mem_sortByKey (key : EmbRecord → Int) (z : EmbRecord) :
    ∀ l, z ∈ sortByKey key l ↔ z ∈ l := by
  intro l
  induction l with
  | nil => simp [sortByKey]
  | cons y ys ih =>
    show z ∈ insertSorted key y (sortByKey key ys) ↔ _
    rw [mem_insertSorted]
    simp [ih]

theorem sorted_insertSorted (key : EmbRecord → Int) (x : EmbRecord) :
    ∀ l, l.Pairwise (fun a b => key a ≤ key b) →
      (insertSorted key x l).Pairwise (fun a b => key a ≤ key b) := by
  intro l
  induction l with
  | nil => intro _; simp [insertSorted]
  | cons y ys ih =>
    intro hp
    rw [List.pairwise_cons] at hp
    obtain ⟨hy, hys⟩ := hp
    by_cases h : key x ≤ key y
    · simp only [insertSorted, h, if_true]
      rw [List.pairwise_cons]
      constructor
      · intro z hz
        rcases List.mem_cons.mp hz with rfl | hz2
        · exact h
        · exact le_trans h (hy z hz2)
      · rw [List.pairwise_cons]
        exact ⟨hy, hys⟩
    · simp only [insertSorted, h, if_false]
      rw [List.pairwise_cons]
      constructor
      · intro z hz
        rcases (mem_insertSorted key x z ys).mp hz with rfl | hz2
        · omega
        · exact hy z hz2
      · exact ih hys

theorem sorted_sortByKey (key : EmbRecord → Int) (l : List EmbRecord) :
    (sortByKey key l).Pairwise (fun a b => key a ≤ key b) := by
  induction l with
  | nil => simp [sortByKey]
  | cons y ys ih =>
    exact sorted_insertSorted key y _ ih

/-! ### Collection-query projection lemmas -/

theorem collQuery_docs (st : Store) (qemb : List Int) (k : Nat) (w : Option String) :
    (collQuery st qemb k w).documents.headD [] =
      ((sortByKey (fun r => sqDist qemb r.emb) (applyWhere w st)).take k).map
        (fun r => r.text) := rfl

theorem collQuery_metas (st : Store) (qemb : List Int) (k : Nat) (w : Option String) :
    (collQuery st qemb k w).metadatas.headD [] =
      ((sortByKey (fun r => sqDist qemb r.emb) (applyWhere w st)).take k).map
        (fun r => (⟨r.doc_id, r.page_number, r.filename⟩ : ChunkMeta)) := rfl

theorem collQuery_dists (st : Store) (qemb : List Int) (k : Nat) (w : Option String) :
    (collQuery st qemb k w).distances.headD [] =
      ((sortByKey (fun r => sqDist qemb r.emb) (applyWhere w st)).take k).map
        (fun r => sqDist qemb r.emb) := rfl

theorem collQuery_len_eq (st : Store) (qemb : List Int) (k : Nat) (w : Option String) :
    ((collQuery st qemb k w).documents.headD []).length =
        ((collQuery st qemb k w).metadatas.headD []).length ∧
      ((collQuery st qemb k w).documents.headD []).length =
        ((collQuery st qemb k w).distances.headD []).length := by
  rw [collQuery_docs, collQuery_metas, collQuery_dists]
  simp

/-! ### Context-formatting lemmas -/

theorem length_buildParts (dists : List Int) :
    ∀ (i : Nat) (l : List (String × ChunkMeta)),
      (buildParts dists i l).length = l.length := by
  intro i l
  induction l generalizing i with
  | nil => rfl
  | cons tm rest ih =>
    cases tm with
    | mk t m => simp [buildParts, ih]

theorem buildParts_getD (dists : List Int) :
    ∀ (l : List (String × ChunkMeta)) (i j : Nat), j < l.length →
      (buildParts dists i l).getD j "" =
        renderBlock dists (i + j) (l.getD j ("", default)).1 (l.getD j ("", default)).2 := by
  intro l
  induction l with
  | nil => intro i j h; simp at h
  | cons tm rest ih =>
    intro i j h
    cases tm with
    | mk t m =>
      cases j with
      | zero =>
        simp only [buildParts, List.getD, List.getElem?_cons_zero, Nat.add_zero]
        rfl
      | succ j2 =>
        have h2 : j2 < rest.length := by simpa using h
        have := ih (i + 1) j2 h2
        simp only [buildParts]
        rw [show ∀ (a : String) (bs : List String), (a :: bs).getD (j2 + 1) "" = bs.getD j2 ""
          from fun a bs => rfl]
        rw [show ((t, m) :: rest).getD (j2 + 1) ("", default) = rest.getD j2 ("", default)
          from rfl]
        rw [this, show i + 1 + j2 = i + (j2 + 1) from by omega]

theorem str_head_append {s : String} {c : Char} {r : List Char}
    (h : s.data = c :: r) (t : String) : ∃ q, (s ++ t).data = c :: q :=
  ⟨r ++ t.data, by rw [str_data_append, h]; rfl⟩

theorem buildParts_mem_head (dists : List Int) :
    ∀ (i : Nat) (l : List (String × ChunkMeta)) (b : String), b ∈ buildParts dists i l →
      ∃ rest, b.data = '[' :: rest := by
  intro i l
  induction l generalizing i with
  | nil => intro b h; cases h
  | cons tm rest ih =>
    intro b hb
    cases tm with
    | mk t m =>
      simp only [buildParts, List.mem_cons] at hb
      rcases hb with rfl | hb2
      · have hL : ("[Source: " : String).data = '[' :: "Source: ".data := rfl
        obtain ⟨q1, h1⟩ := str_head_append hL m.filename
        obtain ⟨q2, h2⟩ := str_head_append h1 ", Page "
        obtain ⟨q3, h3⟩ := str_head_append h2 (natRepr m.page_number)
        obtain ⟨q4, h4⟩ := str_head_append h3 "]"
        by_cases hc : dists ≠ [] ∧ i < dists.length
        · rw [if_pos hc]
          obtain ⟨q5, h5⟩ := str_head_append h4 " (Relevance: "
          obtain ⟨q6, h6⟩ := str_head_append h5 (fmtPercent (1 - dists.getD i 0))
          obtain ⟨q7, h7⟩ := str_head_append h6 ")"
          obtain ⟨q8, h8⟩ := str_head_append h7 "\n"
          obtain ⟨q9, h9⟩ := str_head_append h8 t
          exact ⟨q9, h9⟩
        · rw [if_neg hc]
          obtain ⟨q8, h8⟩ := str_head_append h4 "\n"
          obtain ⟨q9, h9⟩ := str_head_append h8 t
          exact ⟨q9, h9⟩
      · exact ih (i + 1) b hb2

/-! ### Chunker lemmas -/

theorem chunk_inner_foldl (g : Nat → String → Chunk) :
    ∀ (l : List String) (acc : List Chunk) (i : Nat),
      l.foldl (fun st tc => (st.1 ++ [g st.2 tc], st.2 + 1)) (acc, i) =
        (acc ++ (List.enumFrom i l).map (fun e => g e.1 e.2), i + l.length) := by
  intro l
  induction l with
  | nil => intro acc i; simp
  | cons t ts ih =>
    intro acc i
    simp only [List.foldl_cons, List.enumFrom, List.map_cons, List.length_cons]
    rw [ih]
    simp only [Prod.mk.injEq]
    constructor
    · simp
    · omega

theorem foldl_append_flatMap (F : PageData → List Chunk) :
    ∀ (l : List PageData) (acc : List Chunk),
      l.foldl (fun a p => a ++ F p) acc = acc ++ l.flatMap F := by
  intro l
  induction l with
  | nil => intro acc; simp
  | cons p ps ih =>
    intro acc
    simp only [List.foldl_cons, List.flatMap_cons]
    rw [ih, List.append_assoc]

theorem chunk_document_eq (split : String → List String) (d : String)
    (pages : List PageData) :
    chunk_document split d pages =
      pages.flatMap (fun pg =>
        (List.enumFrom 0 (split pg.text)).map
          (fun e => ⟨mkChunkId d pg.page_number e.1, d, pg.page_number, e.2⟩)) := by
  have hstep : ∀ (chunks : List Chunk) (page : PageData),
      ((split page.text).foldl
        (fun st tc =>
          (st.1 ++ [{ chunk_id := mkChunkId d page.page_number st.2,
                      doc_id := d,
                      page_number := page.page_number,
                      text := tc }],
           st.2 + 1))
        (chunks, 0)).1 =
        chunks ++ (List.enumFrom 0 (split page.text)).map
          (fun e => ⟨mkChunkId d page.page_number e.1, d, page.page_number, e.2⟩) := by
    intro chunks page
    rw [chunk_inner_foldl
      (fun i tc => ⟨mkChunkId d page.page_number i, d, page.page_number, tc⟩)]
  unfold chunk_document
  simp only [hstep]
  rw [foldl_append_flatMap
    (fun pg => (List.enumFrom 0 (split pg.text)).map
      (fun e => ⟨mkChunkId d pg.page_number e.1, d, pg.page_number, e.2⟩))]
  simp

theorem mem_enumFrom_get {α : Type} :
    ∀ (xs : List α) (n : Nat) (e : Nat × α), e ∈ List.enumFrom n xs →
      n ≤ e.1 ∧ e.1 - n < xs.length ∧ xs[e.1 - n]? = some e.2 := by
  intro xs
  induction xs with
  | nil => intro n e h; cases h
  | cons x ys ih =>
    intro n e h
    simp only [List.enumFrom, List.mem_cons] at h
    rcases h with rfl | h2
    · simp
    · obtain ⟨ha, hb, hc⟩ := ih (n + 1) e h2
      refine ⟨by omega, by simp; omega, ?_⟩
      have he : e.1 - n = (e.1 - (n + 1)) + 1 := by omega
      rw [he, List.getElem?_cons_succ]
      exact hc

theorem get_mem_enumFrom {α : Type} :
    ∀ (xs : List α) (n i : Nat) (x : α), xs[i]? = some x →
      (n + i, x) ∈ List.enumFrom n xs := by
  intro xs
  induction xs with
  | nil => intro n i x h; simp at h
  | cons y ys ih =>
    intro n i x h
    cases i with
    | zero =>
      simp only [List.getElem?_cons_zero, Option.some.injEq] at h
      subst h
      simp [List.enumFrom]
    | succ j =>
      rw [List.getElem?_cons_succ] at h
      have := ih (n + 1) j x h
      simp only [List.enumFrom, List.mem_cons]
      right
      rw [show n + (j + 1) = (n + 1) + j from by omega]
      exact this

theorem nodup_flatMap {α β : Type} (F : α → List β) :
    ∀ (l : List α), (∀ p ∈ l, (F p).Nodup) →
      l.Pairwise (fun a b => (F a).Disjoint (F b)) → (l.flatMap F).Nodup := by
  intro l
  induction l with
  | nil => intro _ _; simp
  | cons p ps ih =>
    intro hn hp
    rw [List.pairwise_cons] at hp
    obtain ⟨hd, hps⟩ := hp
    simp only [List.flatMap_cons]
    apply List.Nodup.append (hn p (by simp)) (ih (fun q hq => hn q (by simp [hq])) hps)
    intro x hx1 hx2
    rw [List.mem_flatMap] at hx2
    obtain ⟨q, hq, hxq⟩ := hx2
    exact hd q hq hx1 hxq

theorem chunk_ids_eq (split : String → List String) (d : String) (pages : List PageData) :
    (chunk_document split d pages).map (fun c => c.chunk_id) =
      pages.flatMap (fun pg =>
        (List.enumFrom 0 (split pg.text)).map (fun e => mkChunkId d pg.page_number e.1)) := by
  rw [chunk_document_eq, List.map_flatMap]
  congr 1
  funext pg
  rw [List.map_map]
  rfl

theorem inner_ids_nodup (d : String) (pg : Nat) (xs : List String) :
    ((List.enumFrom 0 xs).map (fun e => mkChunkId d pg e.1)).Nodup := by
  have h1 : (List.enumFrom 0 xs).map (fun e => mkChunkId d pg e.1) =
      ((List.enumFrom 0 xs).map Prod.fst).map (fun i => mkChunkId d pg i) := by
    rw [List.map_map]
    rfl
  rw [h1, List.enumFrom_map_fst]
  apply List.Nodup.map
  · intro a b hab
    exact (mkChunkId_inj hab).2
  · exact List.nodup_range' 0 xs.length

theorem chunk_ids_nodup (split : String → List String) (d : String) (pages : List PageData)
    (hpg : (pages.map (fun p => p.page_number)).Nodup) :
    ((chunk_document split d pages).map (fun c => c.chunk_id)).Nodup := by
  rw [chunk_ids_eq]
  apply nodup_flatMap
  · intro p _
    exact inner_ids_nodup d p.page_number (split p.text)
  · have hpw : pages.Pairwise (fun a b => a.page_number ≠ b.page_number) := by
      rw [List.Nodup, List.pairwise_map] at hpg
      exact hpg
    apply hpw.imp
    intro a b hne
    intro x hxa hxb
    rw [List.mem_map] at hxa hxb
    obtain ⟨e1, _, he1⟩ := hxa
    obtain ⟨e2, _, he2⟩ := hxb
    rw [← he2] at he1
    exact hne (mkChunkId_inj he1).1

/-! ### Additional shared helper lemmas -/

theorem get_context_eq (embQ : String → List Int) (st : Store) (q : String)
    (f : Option String) (n : Nat) :
    get_context embQ st q f n =
      (if (query_collection embQ st q n f).documents.headD [] = [] then ""
       else
         pyJoin "\n\n---\n\n"
           (buildParts ((query_collection embQ st q n f).distances.headD []) 0
             (((query_collection embQ st q n f).documents.headD []).zip
               ((query_collection embQ st q n f).metadatas.headD [])))) := rfl

theorem get_context_empty_of_no_match (embQ : String → List Int) (st : Store)
    (q : String) (f : Option String) (n : Nat)
    (h : applyWhere (truthyFilter f) st = []) : get_context embQ st q f n = "" := by
  rw [get_context_eq]
  rw [if_pos]
  show (collQuery st (embQ q) n (truthyFilter f)).documents.headD [] = []
  rw [collQuery_docs, h]
  simp [sortByKey]

/-! ### Claim theorems -/

/-- C10: passing the empty string as the document filter to
`query_collection` is treated identically to passing no filter at all; the
`where` restriction is dropped and the search runs over the whole
collection, because the filter is applied only when the argument is
truthy. -/
theorem empty_filter_unrestricted (embQ : String → List Int) (st : Store)
    (q : String) (n : Nat) :
    query_collection embQ st q n (some "") = query_collection embQ st q n none ∧
    applyWhere (truthyFilter (some "")) st = st := ⟨rfl, rfl⟩

/-- C9: `save_chunks_to_db` on an empty chunk list returns 0 and leaves the
store untouched; on a non-empty chunk list, the code path that attempts
persistence reports a count exactly equal to the number of input chunks. -/
theorem save_chunks_counts (embD : List String → List (List Int)) (st : Store)
    (fm : Option String) :
    save_chunks_to_db embD st [] fm = (st, 0) ∧
    ∀ chunks : List Chunk, chunks ≠ [] →
      (save_chunks_to_db embD st chunks fm).2 = chunks.length := by
  constructor
  · rfl
  · intro chunks hne
    unfold save_chunks_to_db
    rw [if_neg (by simpa using hne)]

/-- Witness for C9 at concrete inputs. -/
theorem save_chunks_counts_witness :
    save_chunks_to_db (fun ts => ts.map (fun _ => [])) [] [] none = ([], 0) ∧
    (save_chunks_to_db (fun ts => ts.map (fun _ => []))
      [] [⟨"c1", "d", 1, "t"⟩] none).2 = 1 :=
  ⟨(save_chunks_counts (fun ts => ts.map (fun _ => [])) [] none).1,
    (save_chunks_counts (fun ts => ts.map (fun _ => [])) [] none).2
      [⟨"c1", "d", 1, "t"⟩] (by simp)⟩

/-- C8: `delete_document_chunks` removes exactly the records whose
parent-document metadata equals the argument, reports success, succeeds as
a no-op when the document has no stored chunks (idempotence), and reports
an internal failure as `false` with the store unchanged instead of
raising. -/
theorem delete_document_chunks_spec (st : Store) (d : String) :
    (delete_document_chunks true st d).2 = true ∧
    (∀ r : EmbRecord, r ∈ (delete_document_chunks true st d).1 ↔ r ∈ st ∧ r.doc_id ≠ d) ∧
    ((∀ r ∈ st, r.doc_id ≠ d) → delete_document_chunks true st d = (st, true)) ∧
    delete_document_chunks false st d = (st, false) := by
  refine ⟨rfl, ?_, ?_, rfl⟩
  · intro r
    show r ∈ st.filter (fun r => r.doc_id != d) ↔ _
    rw [List.mem_filter]
    simp [bne_iff_ne]
  · intro h
    show (st.filter (fun r => r.doc_id != d), true) = (st, true)
    rw [List.filter_eq_self.mpr]
    intro a ha
    simp [bne_iff_ne]
    exact h a ha

/-- Witness for C8 at concrete inputs. -/
theorem delete_document_chunks_witness :
    delete_document_chunks true [⟨"i", "t", [], "keep", 1, "f"⟩] "gone" =
      ([⟨"i", "t", [], "keep", 1, "f"⟩], true) ∧
    delete_document_chunks false [⟨"i", "t", [], "keep", 1, "f"⟩] "keep" =
      ([⟨"i", "t", [], "keep", 1, "f"⟩], false) :=
  ⟨(delete_document_chunks_spec [⟨"i", "t", [], "keep", 1, "f"⟩] "gone").2.2.1 (by decide),
    (delete_document_chunks_spec [⟨"i", "t", [], "keep", 1, "f"⟩] "keep").2.2.2⟩

/-- C1: the code calls `collection.add`, which does not overwrite an
already-present chunk identifier; re-saving the same chunk identifier with
new text leaves the old record in place (and still reports the full count
as saved), whereas the upsert prescribed by the spec would overwrite the
record. The total record count indeed does not grow, but the store is not
reproducible under re-ingestion: the text is stale. -/
theorem save_chunks_add_does_not_overwrite :
    (((save_chunks_to_db (fun ts => ts.map (fun _ => [])) []
        [⟨"d_1_0", "d", 1, "old"⟩] (some "f.pdf")).1).map (fun r => (r.id, r.text)) =
      [("d_1_0", "old")]) ∧
    ((save_chunks_to_db (fun ts => ts.map (fun _ => []))
        (save_chunks_to_db (fun ts => ts.map (fun _ => [])) []
          [⟨"d_1_0", "d", 1, "old"⟩] (some "f.pdf")).1
        [⟨"d_1_0", "d", 1, "new"⟩] (some "f.pdf")).2 = 1) ∧
    (((save_chunks_to_db (fun ts => ts.map (fun _ => []))
        (save_chunks_to_db (fun ts => ts.map (fun _ => [])) []
          [⟨"d_1_0", "d", 1, "old"⟩] (some "f.pdf")).1
        [⟨"d_1_0", "d", 1, "new"⟩] (some "f.pdf")).1).map (fun r => (r.id, r.text)) =
      [("d_1_0", "old")]) ∧
    ((collUpsert
        (save_chunks_to_db (fun ts => ts.map (fun _ => [])) []
          [⟨"d_1_0", "d", 1, "old"⟩] (some "f.pdf")).1
        [⟨"d_1_0", "new", [], "d", 1, "f.pdf"⟩]).map (fun r => (r.id, r.text)) =
      [("d_1_0", "new")]) := by
  decide

/-- C4: with empty or blank context the answer generator returns the fixed
refusal message without invoking the generation service; end to end, a
query whose filter matches no stored record yields the refusal answer,
source count 0, and zero generation-service calls. -/
theorem no_context_refusal (llm : String → Except String (Option String))
    (embQ : String → List Int) (st : Store) (q : String) (f : Option String) :
    (∀ question ctx : String, pyStrip ctx = "" →
      generate_answer llm question ctx = (NO_CONTEXT_MSG, 0)) ∧
    (applyWhere (truthyFilter f) st = [] →
      query_documents llm embQ st q f =
        ({ answer := NO_CONTEXT_MSG, question := q, sources_used := 0 }, 0)) := by
  constructor
  · intro question ctx h
    unfold generate_answer
    rw [if_pos h]
  · intro h
    have hctx := get_context_empty_of_no_match embQ st q f 5 h
    unfold query_documents
    rw [hctx]
    rfl

/-- Witness for C4 at concrete inputs. -/
theorem no_context_refusal_witness :
    generate_answer (fun _ => Except.ok (some "x")) "q" " \n " = (NO_CONTEXT_MSG, 0) ∧
    query_documents (fun _ => Except.ok (some "x")) (fun _ => []) [] "q" none =
      ({ answer := NO_CONTEXT_MSG, question := "q", sources_used := 0 }, 0) :=
  ⟨(no_context_refusal (fun _ => Except.ok (some "x")) (fun _ => []) [] "q" none).1
      "q" " \n " (by decide),
    (no_context_refusal (fun _ => Except.ok (some "x")) (fun _ => []) [] "q" none).2
      (by decide)⟩

/-- C2: the similarity-query contract of `query_collection`: results are
restricted to the filtered document when a non-empty filter is supplied,
at most `top_k` items are returned in non-decreasing distance order,
exactly `min top_k matched` items are returned (fewer than `top_k` when
fewer records match), and an empty collection or a filter matching nothing
yields empty result lists rather than an error. -/
theorem query_collection_contract (embQ : String → List Int) (st : Store)
    (q : String) (k : Nat) (f : Option String) :
    (∀ d, f = some d → d ≠ "" →
      ∀ m ∈ (query_collection embQ st q k f).metadatas.headD [], m.doc_id = d) ∧
    ((query_collection embQ st q k f).documents.headD []).length ≤ k ∧
    ((query_collection embQ st q k f).documents.headD []).length =
      min k (applyWhere (truthyFilter f) st).length ∧
    ((query_collection embQ st q k f).distances.headD []).Pairwise (fun a b => a ≤ b) ∧
    (applyWhere (truthyFilter f) st = [] →
      (query_collection embQ st q k f).documents.headD [] = [] ∧
      (query_collection embQ st q k f).metadatas.headD [] = [] ∧
      (query_collection embQ st q k f).distances.headD [] = []) := by
  have hq : query_collection embQ st q k f = collQuery st (embQ q) k (truthyFilter f) := rfl
  refine ⟨?_, ?_, ?_, ?_, ?_⟩
  · intro d hf hd m hm
    rw [hq, collQuery_metas] at hm
    rw [List.mem_map] at hm
    obtain ⟨r, hr, hrm⟩ := hm
    have hr2 : r ∈ sortByKey (fun r => sqDist (embQ q) r.emb)
        (applyWhere (truthyFilter f) st) := List.mem_of_mem_take hr
    rw [mem_sortByKey] at hr2
    have hfil : truthyFilter f = some d := by
      rw [hf]
      show (if d.isEmpty then none else some d) = some d
      rw [if_neg]
      intro hde
      exact hd ((String.isEmpty_iff d).mp hde)
    rw [hfil] at hr2
    rw [show applyWhere (some d) st = st.filter (fun r => r.doc_id == d) from rfl] at hr2
    rw [List.mem_filter] at hr2
    have := hr2.2
    rw [beq_iff_eq] at this
    rw [← hrm]
    exact this
  · rw [hq, collQuery_docs]
    simp only [List.length_map, List.length_take]
    omega
  · rw [hq, collQuery_docs]
    simp only [List.length_map, List.length_take, length_sortByKey]
  · rw [hq, collQuery_dists]
    rw [List.pairwise_map]
    apply List.Pairwise.sublist (List.take_sublist k _)
    exact sorted_sortByKey (fun r => sqDist (embQ q) r.emb) _
  · intro h
    rw [hq, collQuery_docs, collQuery_metas, collQuery_dists, h]
    simp [sortByKey]

/-- Witness for C2 at concrete inputs. -/
theorem query_collection_contract_witness :
    (∀ m ∈ (query_collection (fun _ => [0])
        [⟨"a", "t1", [3], "d1", 1, "f"⟩, ⟨"b", "t2", [1], "d1", 2, "f"⟩,
         ⟨"c", "t3", [2], "d2", 1, "g"⟩] "q" 5 (some "d1")).metadatas.headD [],
      m.doc_id = "d1") ∧
    ((query_collection (fun _ => [0])
        [⟨"a", "t1", [3], "d1", 1, "f"⟩, ⟨"b", "t2", [1], "d1", 2, "f"⟩,
         ⟨"c", "t3", [2], "d2", 1, "g"⟩] "q" 5 (some "d1")).documents.headD []).length =
      min 5 (applyWhere (truthyFilter (some "d1"))
        [⟨"a", "t1", [3], "d1", 1, "f"⟩, ⟨"b", "t2", [1], "d1", 2, "f"⟩,
         ⟨"c", "t3", [2], "d2", 1, "g"⟩]).length ∧
    ((query_collection (fun _ => [0])
        [⟨"a", "t1", [3], "d1", 1, "f"⟩, ⟨"b", "t2", [1], "d1", 2, "f"⟩,
         ⟨"c", "t3", [2], "d2", 1, "g"⟩] "q" 5 (some "d1")).distances.headD
      []).Pairwise (fun a b => a ≤ b) :=
  ⟨(query_collection_contract (fun _ => [0])
      [⟨"a", "t1", [3], "d1", 1, "f"⟩, ⟨"b", "t2", [1], "d1", 2, "f"⟩,
       ⟨"c", "t3", [2], "d2", 1, "g"⟩] "q" 5 (some "d1")).1 "d1" rfl (by decide),
    (query_collection_contract (fun _ => [0])
      [⟨"a", "t1", [3], "d1", 1, "f"⟩, ⟨"b", "t2", [1], "d1", 2, "f"⟩,
       ⟨"c", "t3", [2], "d2", 1, "g"⟩] "q" 5 (some "d1")).2.2.1,
    (query_collection_contract (fun _ => [0])
      [⟨"a", "t1", [3], "d1", 1, "f"⟩, ⟨"b", "t2", [1], "d1", 2, "f"⟩,
       ⟨"c", "t3", [2], "d2", 1, "g"⟩] "q" 5 (some "d1")).2.2.2.1⟩

/-- C6: a page that is non-empty after trimming and shorter than the
configured chunk size yields exactly one chunk equal to the trimmed page
text; a page empty after trimming yields zero chunks. -/
theorem chunker_short_page (cs ov : Nat) (txt : String) (p : Nat) (d : String) :
    (pyStrip txt ≠ "" → txt.length < cs →
      chunk_document (split_text cs ov) d [⟨txt, p⟩] =
        [⟨mkChunkId d p 0, d, p, pyStrip txt⟩]) ∧
    (pyStrip txt = "" → chunk_document (split_text cs ov) d [⟨txt, p⟩] = []) := by
  constructor
  · intro h1 h2
    have hlen : (pyStrip txt).length ≤ cs :=
      le_of_lt (lt_of_le_of_lt (pyStrip_len_le txt) h2)
    have hsplit : split_text cs ov txt = [pyStrip txt] := by
      show (if pyStrip txt = "" then [] else
        if (pyStrip txt).length ≤ cs then [pyStrip txt] else _) = [pyStrip txt]
      rw [if_neg h1, if_pos hlen]
    rw [chunk_document_eq]
    simp [hsplit, List.enumFrom]
  · intro h
    have hsplit : split_text cs ov txt = [] := by
      show (if pyStrip txt = "" then [] else _) = []
      rw [if_pos h]
    rw [chunk_document_eq]
    simp [hsplit]

/-- Witness for C6 at concrete inputs. -/
theorem chunker_short_page_witness :
    chunk_document (split_text 1000 200) "d" [⟨" hi ", 1⟩] =
      [⟨mkChunkId "d" 1 0, "d", 1, "hi"⟩] ∧
    chunk_document (split_text 1000 200) "d" [⟨" \n ", 1⟩] = [] := by
  constructor
  · have h := (chunker_short_page 1000 200 " hi " 1 "d").1 (by decide) (by decide)
    rw [h]
    decide
  · exact (chunker_short_page 1000 200 " \n " 1 "d").2 (by decide)

/-- C5: over a well-formed page sequence (pairwise-distinct page numbers
inside [1, page count], as the extraction layer guarantees), every chunk
produced by `chunk_document` belongs to exactly one page, carries the
identifier `{document_id}_{page_number}_{sequence_index}` with the
sequence index restarting at 0 on each page, all chunk identifiers are
pairwise distinct, and every chunk's page number lies in [1, page count]. -/
theorem chunk_document_ids_spec (split : String → List String) (d : String)
    (pages : List PageData) (pageCount : Nat)
    (h1 : (pages.map (fun p => p.page_number)).Nodup)
    (h2 : ∀ p ∈ pages, 1 ≤ p.page_number ∧ p.page_number ≤ pageCount) :
    (∀ c ∈ chunk_document split d pages,
      ∃ p ∈ pages, c.page_number = p.page_number ∧ c.doc_id = d ∧
        (∀ p2 ∈ pages, p2.page_number = c.page_number → p2 = p) ∧
        ∃ i, i < (split p.text).length ∧ (split p.text)[i]? = some c.text ∧
          c.chunk_id = mkChunkId d p.page_number i) ∧
    (∀ p ∈ pages, ∀ i, i < (split p.text).length →
      ∃ c ∈ chunk_document split d pages,
        c.chunk_id = mkChunkId d p.page_number i ∧ c.page_number = p.page_number) ∧
    ((chunk_document split d pages).map (fun c => c.chunk_id)).Nodup ∧
    (∀ c ∈ chunk_document split d pages,
      1 ≤ c.page_number ∧ c.page_number ≤ pageCount) := by
  have hmem : ∀ c ∈ chunk_document split d pages,
      ∃ p ∈ pages, ∃ e ∈ List.enumFrom 0 (split p.text),
        c = ⟨mkChunkId d p.page_number e.1, d, p.page_number, e.2⟩ := by
    intro c hc
    rw [chunk_document_eq, List.mem_flatMap] at hc
    obtain ⟨p, hp, hcp⟩ := hc
    rw [List.mem_map] at hcp
    obtain ⟨e, he, hce⟩ := hcp
    exact ⟨p, hp, e, he, hce.symm⟩
  refine ⟨?_, ?_, chunk_ids_nodup split d pages h1, ?_⟩
  · intro c hc
    obtain ⟨p, hp, e, he, hce⟩ := hmem c hc
    obtain ⟨_, hlt, hget⟩ := mem_enumFrom_get (split p.text) 0 e he
    refine ⟨p, hp, by rw [hce], by rw [hce], ?_, e.1, ?_, ?_, by rw [hce]⟩
    · intro p2 hp2 hpn
      have hcp : c.page_number = p.page_number := by rw [hce]
      rw [hcp] at hpn
      exact List.inj_on_of_nodup_map h1 hp2 hp hpn
    · simpa using hlt
    · rw [hce]
      simpa using hget
  · intro p hp i hi
    have hx : (split p.text)[i]? = some ((split p.text).get ⟨i, hi⟩) := by
      rw [List.getElem?_eq_getElem hi]
      rfl
    have hme := get_mem_enumFrom (split p.text) 0 i _ hx
    refine ⟨⟨mkChunkId d p.page_number i, d, p.page_number, (split p.text).get ⟨i, hi⟩⟩,
      ?_, rfl, rfl⟩
    rw [chunk_document_eq, List.mem_flatMap]
    refine ⟨p, hp, ?_⟩
    rw [List.mem_map]
    refine ⟨(0 + i, (split p.text).get ⟨i, hi⟩), hme, ?_⟩
    simp
  · intro c hc
    obtain ⟨p, hp, e, _, hce⟩ := hmem c hc
    have := h2 p hp
    rw [hce]
    simpa using this

/-- Witness for C5 at concrete inputs. -/
theorem chunk_document_ids_spec_witness :
    (∀ c ∈ chunk_document (fun s => [s, s ++ "!"]) "d" [⟨"a", 1⟩, ⟨"b", 2⟩],
      ∃ p ∈ [(⟨"a", 1⟩ : PageData), ⟨"b", 2⟩], c.page_number = p.page_number ∧
        c.doc_id = "d" ∧
        (∀ p2 ∈ [(⟨"a", 1⟩ : PageData), ⟨"b", 2⟩], p2.page_number = c.page_number → p2 = p) ∧
        ∃ i, i < ((fun s => [s, s ++ "!"]) p.text).length ∧
          ((fun s => [s, s ++ "!"]) p.text)[i]? = some c.text ∧
          c.chunk_id = mkChunkId "d" p.page_number i) ∧
    (∀ p ∈ [(⟨"a", 1⟩ : PageData), ⟨"b", 2⟩], ∀ i,
      i < ((fun s => [s, s ++ "!"]) p.text).length →
      ∃ c ∈ chunk_document (fun s => [s, s ++ "!"]) "d" [⟨"a", 1⟩, ⟨"b", 2⟩],
        c.chunk_id = mkChunkId "d" p.page_number i ∧ c.page_number = p.page_number) ∧
    ((chunk_document (fun s => [s, s ++ "!"]) "d" [⟨"a", 1⟩, ⟨"b", 2⟩]).map
      (fun c => c.chunk_id)).Nodup ∧
    (∀ c ∈ chunk_document (fun s => [s, s ++ "!"]) "d" [⟨"a", 1⟩, ⟨"b", 2⟩],
      1 ≤ c.page_number ∧ c.page_number ≤ 2) :=
  chunk_document_ids_spec (fun s => [s, s ++ "!"]) "d" [⟨"a", 1⟩, ⟨"b", 2⟩] 2
    (by decide) (by decide)

theorem zip_getD :
    ∀ (a : List String) (b : List ChunkMeta) (j : Nat), j < a.length → j < b.length →
      (a.zip b).getD j ("", default) = (a.getD j "", b.getD j default) := by
  intro a
  induction a with
  | nil => intro b j h _; simp at h
  | cons x xs ih =>
    intro b j h1 h2
    cases b with
    | nil => simp at h2
    | cons y ys =>
      cases j with
      | zero => rfl
      | succ j2 =>
        have := ih ys j2 (by simpa using h1) (by simpa using h2)
        simpa using this

/-- C3: `get_context` returns the empty string exactly when the similarity
query returns no results; otherwise it renders, for each result in ranked
order, a citation block (source filename and page number, a relevance
annotation derived from `1 - distance` where a distance is available, and
the chunk text on the next line) and joins the blocks in ranked order with
the fixed delimiter line. -/
theorem get_context_spec (embQ : String → List Int) (st : Store) (q : String)
    (f : Option String) (n : Nat) :
    (get_context embQ st q f n = "" ↔
      (query_collection embQ st q n f).documents.headD [] = []) ∧
    ((query_collection embQ st q n f).documents.headD [] ≠ [] →
      get_context embQ st q f n =
        pyJoin "\n\n---\n\n"
          (buildParts ((query_collection embQ st q n f).distances.headD []) 0
            (((query_collection embQ st q n f).documents.headD []).zip
              ((query_collection embQ st q n f).metadatas.headD []))) ∧
      (buildParts ((query_collection embQ st q n f).distances.headD []) 0
          (((query_collection embQ st q n f).documents.headD []).zip
            ((query_collection embQ st q n f).metadatas.headD []))).length =
        ((query_collection embQ st q n f).documents.headD []).length ∧
      ∀ j, j < ((query_collection embQ st q n f).documents.headD []).length →
        (buildParts ((query_collection embQ st q n f).distances.headD []) 0
            (((query_collection embQ st q n f).documents.headD []).zip
              ((query_collection embQ st q n f).metadatas.headD []))).getD j "" =
          renderBlock ((query_collection embQ st q n f).distances.headD []) j
            (((query_collection embQ st q n f).documents.headD []).getD j "")
            (((query_collection embQ st q n f).metadatas.headD []).getD j default)) := by
  have hlen := collQuery_len_eq st (embQ q) n (truthyFilter f)
  have hql : query_collection embQ st q n f = collQuery st (embQ q) n (truthyFilter f) := rfl
  have hzlen :
      ((((query_collection embQ st q n f).documents.headD [])).zip
        ((query_collection embQ st q n f).metadatas.headD [])).length =
      ((query_collection embQ st q n f).documents.headD []).length := by
    rw [List.length_zip, hql, ← hlen.1]
    omega
  have hnonempty : (query_collection embQ st q n f).documents.headD [] ≠ [] →
      get_context embQ st q f n ≠ "" := by
    intro hne
    rw [get_context_eq, if_neg hne]
    have hplen : (buildParts ((query_collection embQ st q n f).distances.headD []) 0
        (((query_collection embQ st q n f).documents.headD []).zip
          ((query_collection embQ st q n f).metadatas.headD []))).length ≠ 0 := by
      rw [length_buildParts, hzlen]
      simpa using hne
    cases hparts : buildParts ((query_collection embQ st q n f).distances.headD []) 0
        (((query_collection embQ st q n f).documents.headD []).zip
          ((query_collection embQ st q n f).metadatas.headD [])) with
    | nil => rw [hparts] at hplen; simp at hplen
    | cons b rest =>
      have hbh : ∃ r, b.data = '[' :: r :=
        buildParts_mem_head _ 0 _ b (by rw [hparts]; simp)
      obtain ⟨r, hbr⟩ := hbh
      obtain ⟨tail, htail⟩ := pyJoin_head "\n\n---\n\n" rest hbr
      exact str_ne_empty_of_data htail
  constructor
  · constructor
    · intro hctx
      by_contra hne
      exact hnonempty hne hctx
    · intro hd
      rw [get_context_eq, if_pos hd]
  · intro hne
    refine ⟨by rw [get_context_eq, if_neg hne], by rw [length_buildParts, hzlen], ?_⟩
    intro j hj
    have hjz : j < ((((query_collection embQ st q n f).documents.headD [])).zip
        ((query_collection embQ st q n f).metadatas.headD [])).length := by
      rw [hzlen]; exact hj
    rw [buildParts_getD _ _ 0 j hjz]
    rw [zip_getD _ _ j hj (by rw [hql, ← hlen.1]; exact hj)]
    simp

/-- Witness for C3 at concrete inputs. -/
theorem get_context_spec_witness :
    get_context (fun _ => ([] : List Int)) [] "q" none 5 = "" ∧
    get_context (fun _ => ([] : List Int)) [⟨"d_1_0", "hello", [], "d", 1, "f.pdf"⟩]
        "q" none 5 =
      pyJoin "\n\n---\n\n"
        (buildParts
          ((query_collection (fun _ => ([] : List Int))
            [⟨"d_1_0", "hello", [], "d", 1, "f.pdf"⟩] "q" 5 none).distances.headD []) 0
          (((query_collection (fun _ => ([] : List Int))
              [⟨"d_1_0", "hello", [], "d", 1, "f.pdf"⟩] "q" 5 none).documents.headD []).zip
            ((query_collection (fun _ => ([] : List Int))
              [⟨"d_1_0", "hello", [], "d", 1, "f.pdf"⟩] "q" 5 none).metadatas.headD []))) :=
  ⟨(get_context_spec (fun _ => ([] : List Int)) [] "q" none 5).1.mpr (by decide),
    ((get_context_spec (fun _ => ([] : List Int))
      [⟨"d_1_0", "hello", [], "d", 1, "f.pdf"⟩] "q" none 5).2 (by decide)).1⟩

/-- C7 counterexample: with a single stored chunk whose text contains
`---`, the endpoint reports 2 citation-delimited sources while only 1
retrieved chunk was rendered into the context, so the reported source
count is not the number of retrieved chunks. -/
theorem sources_count_counterexample :
    (query_documents (fun _ => Except.ok (some "ans")) (fun _ => [])
        [⟨"d_1_0", "a---b", [], "d", 1, "f.pdf"⟩] "q" none).1.sources_used = 2 ∧
    ((query_collection (fun _ => ([] : List Int))
        [⟨"d_1_0", "a---b", [], "d", 1, "f.pdf"⟩] "q" 5 none).documents.headD []).length =
      1 := by
  decide

/-- C7 (amended): the endpoint reports `context.count("---") + 1` sources;
this equals the number of retrieved chunks rendered into the context
whenever no rendered block contains `---` (in particular whenever no
retrieved chunk's text or filename contains `---`), and it equals the
number of `---`-delimited segments of the context in general. -/
theorem query_sources_count (llm : String → Except String (Option String))
    (embQ : String → List Int) (st : Store) (q : String) (f : Option String)
    (h : ∀ b ∈ buildParts ((query_collection embQ st q 5 f).distances.headD []) 0
        (((query_collection embQ st q 5 f).documents.headD []).zip
          ((query_collection embQ st q 5 f).metadatas.headD [])),
      hasSub dash3 b.data = false) :
    (query_documents llm embQ st q f).1.sources_used =
      ((query_collection embQ st q 5 f).documents.headD []).length := by
  have hlen := collQuery_len_eq st (embQ q) 5 (truthyFilter f)
  have hql : query_collection embQ st q 5 f = collQuery st (embQ q) 5 (truthyFilter f) := rfl
  have hzlen :
      ((((query_collection embQ st q 5 f).documents.headD [])).zip
        ((query_collection embQ st q 5 f).metadatas.headD [])).length =
      ((query_collection embQ st q 5 f).documents.headD []).length := by
    rw [List.length_zip, hql, ← hlen.1]
    omega
  by_cases hd : (query_collection embQ st q 5 f).documents.headD [] = []
  · have hctx : get_context embQ st q f 5 = "" := by rw [get_context_eq, if_pos hd]
    have hqd : query_documents llm embQ st q f =
        ({ answer := NO_CONTEXT_MSG, question := q, sources_used := 0 }, 0) := by
      unfold query_documents
      rw [hctx]
      rfl
    rw [hqd, hd]
    rfl
  · have hctxeq : get_context embQ st q f 5 =
        pyJoin "\n\n---\n\n"
          (buildParts ((query_collection embQ st q 5 f).distances.headD []) 0
            (((query_collection embQ st q 5 f).documents.headD []).zip
              ((query_collection embQ st q 5 f).metadatas.headD []))) := by
      rw [get_context_eq, if_neg hd]
    have hplen : (buildParts ((query_collection embQ st q 5 f).distances.headD []) 0
        (((query_collection embQ st q 5 f).documents.headD []).zip
          ((query_collection embQ st q 5 f).metadatas.headD []))).length =
        ((query_collection embQ st q 5 f).documents.headD []).length := by
      rw [length_buildParts, hzlen]
    cases hparts : buildParts ((query_collection embQ st q 5 f).distances.headD []) 0
        (((query_collection embQ st q 5 f).documents.headD []).zip
          ((query_collection embQ st q 5 f).metadatas.headD [])) with
    | nil =>
      exfalso
      rw [hparts] at hplen
      exact hd (List.length_eq_zero.mp hplen.symm)
    | cons b rest =>
      obtain ⟨r, hbr⟩ := buildParts_mem_head _ 0 _ b (by rw [hparts]; simp)
      obtain ⟨tail, htail⟩ := pyJoin_head "\n\n---\n\n" rest hbr
      rw [hparts] at hctxeq
      have hstrip : pyStrip (get_context embQ st q f 5) ≠ "" := by
        apply pyStrip_ne_empty (c := '[')
        · rw [hctxeq]
          exact htail
        · decide
      have hne : get_context embQ st q f 5 ≠ "" := by
        apply str_ne_empty_of_data (c := '[')
        rw [hctxeq]
        exact htail
      have hsrc : (query_documents llm embQ st q f).1.sources_used =
          pyCount (get_context embQ st q f 5) "---" + 1 := by
        unfold query_documents
        rw [if_neg hstrip, if_pos hne]
      rw [hsrc]
      have hcnt : pyCount (get_context embQ st q f 5) "---" =
          pyCnt dash3 (get_context embQ st q f 5).data := rfl
      rw [hcnt, hctxeq]
      rw [cnt_join "\n\n---\n\n" rfl (b :: rest) (by rw [← hparts]; exact h) (by simp)]
      rw [← hparts, length_buildParts, hzlen]
      have h0 : ((query_collection embQ st q 5 f).documents.headD []).length ≠ 0 :=
        fun h0 => hd (List.length_eq_zero.mp h0)
      omega

/-- Witness for the amended C7 at a concrete input without `---` in any
rendered block: one retrieved chunk, reported source count 1. -/
theorem query_sources_count_witness :
    (query_documents (fun _ => Except.ok (some "ans")) (fun _ => [])
        [⟨"d_1_0", "hello", [], "d", 1, "f.pdf"⟩] "q" none).1.sources_used = 1 := by
  have h := query_sources_count (fun _ => Except.ok (some "ans")) (fun _ => [])
    [⟨"d_1_0", "hello", [], "d", 1, "f.pdf"⟩] "q" none (by decide)
  rw [h]
  decide
